import Mathlib

/-!
Verification development for the CanvasSaver export server (`server.js`).

The definitions below are a shallow embedding of the server's core:
the Link-header paginator (`getNextPage`, `paginate`), the course
catalog builder (`fetchCourseMetas`, `fetchAllCourses`), the four
category fetch loops of the `POST /download` endpoint (`runLoop`,
`processModulesUnit`, `processSyllabusUnit`, `processPagesUnit`,
`processSubmissionsUnit`), the SSE progress channel
(`sendProgressWrites`), and the orchestration state (`DState`,
`runDownload`).

Remote HTTP traffic is modelled by explicit "world" records mapping
each request to its response; a response of `none` models a rejected
promise, or a JSON body on which the subsequent `for ... of` iteration
throws.  JavaScript exception propagation is modelled by the
`aborted` flag on `DState` (the download handler has no try/catch, so
a thrown error stops everything after it) and by `Except` where the
code does catch (the catalog builder).  Cancellation of the SSE
channel is modelled by an optional cut point `cp`: the channel is
registered until `cp` units have completed, and is gone afterwards,
matching the `sseClients.get`-guarded writes.
-/

/-- Whether `sep` is a prefix of `l` (used for separator matching in the
model of JS `String.prototype.split`). -/
def isPrefixList : List Char → List Char → Bool
  | [], _ => true
  | _ :: _, [] => false
  | a :: as, b :: bs => a == b && isPrefixList as bs

/-- One pass of JS `split` over the character list: `skip` counts
separator characters still to be consumed after a match, `cur` holds the
current piece reversed. -/
def splitOnGo (sep : List Char) : List Char → Nat → List Char → List (List Char)
  | [], _, cur => [cur.reverse]
  | _ :: rest, Nat.succ skip, cur => splitOnGo sep rest skip cur
  | c :: rest, 0, cur =>
    if isPrefixList sep (c :: rest) then
      cur.reverse :: splitOnGo sep rest (sep.length - 1) []
    else splitOnGo sep rest 0 (c :: cur)

/-- JS `s.split(sep)` for a non-empty separator (the only case the code
uses): the pieces of `s` between non-overlapping occurrences of `sep`. -/
def jsSplit (s sep : String) : List String :=
  (splitOnGo sep.data s.data 0 []).map String.mk

/-- JS `s.split(pat)` occurrence test used for the regex literal test
`/rel="next"/.test(relPart)`: the pattern occurs in `s` iff splitting on it
yields more than one piece. -/
def containsStr (s pat : String) : Bool := (jsSplit s pat).length != 1

/-- Model of `/rel="next"/.test(relPart)` where `relPart` may be `undefined`
(JS stringifies `undefined`, which never matches). -/
def relTest : Option String → Bool
  | none => false
  | some s => containsStr s ("rel=\"next\"")

/-- The whitespace characters relevant to `trim` here. -/
def isSpaceChar (c : Char) : Bool := c == ' ' || c == '\t' || c == '\n' || c == '\r'

/-- JS `s.trim()`: strip leading and trailing whitespace. -/
def jsTrim (s : String) : String :=
  String.mk (((s.data.dropWhile (fun c => isSpaceChar c)).reverse.dropWhile
    (fun c => isSpaceChar c)).reverse)

/-- JS `s.slice(1, -1)`: drop the first and the last character. -/
def jsSliceEnds (s : String) : String := String.mk ((s.data.drop 1).dropLast)

/-- The `for (const part of linkHeader.split(","))` loop body of
`getNextPage`: each part is trimmed and split on `;`; if the second piece
matches `rel="next"`, the trimmed first piece is returned with its angle
brackets stripped. The first matching entry wins. -/
def findNext : List String → Option String
  | [] => none
  | part :: rest =>
    let segs := jsSplit (jsTrim part) (";")
    if relTest segs[1]? then some (jsSliceEnds (jsTrim (segs.headD (""))))
    else findNext rest

/-- `getNextPage(linkHeader)` from `server.js`: `null` header gives `null`;
otherwise the header is split on commas and scanned for a `rel="next"`
entry. -/
def getNextPage : Option String → Option String
  | none => none
  | some h => findNext (jsSplit h (","))

/-- One HTTP page response: `ok` status flag, parsed JSON array body, and
the `Link` header (if any). -/
structure PageResp (α : Type) where
  ok : Bool
  body : List α
  link : Option String

/-- The `while (next)` pagination loop of `fetchAllCourses`: fetch the
current URL, fail on a non-ok response, append the batch, and continue at
the URL extracted by `getNextPage`.  `fuel` bounds the number of requests
(the JS loop terminates exactly when the chain of `next` links is finite);
`none` is a failed fetch or exhausted fuel. -/
def paginate {α : Type} (w : String → PageResp α) : Nat → String → List α → Option (List α)
  | 0, _, _ => none
  | Nat.succ fuel, url, acc =>
    let resp := w url
    if resp.ok then
      match getNextPage resp.link with
      | none => some (acc ++ resp.body)
      | some nxt => paginate w fuel nxt (acc ++ resp.body)
    else none

/-- A finite chain of follow-up pages: starting after `u`, the listed URLs
are reached in order via `getNextPage` on each response's `Link` header, all
pages respond ok, and the last page has no `next` entry. -/
def ChainFrom {α : Type} (w : String → PageResp α) : String → List String → Bool
  | u, [] => (w u).ok && (getNextPage (w u).link).isNone
  | u, v :: rest => (w u).ok && (getNextPage (w u).link == some v) && ChainFrom w v rest

/-- An enrollment record; only `course_id` is consumed. -/
structure Enrollment where
  course_id : Nat
deriving DecidableEq

/-- A course term, as included via `include[]=term`. -/
structure Term where
  name : Option String
  start_at : Option String
  end_at : Option String
deriving DecidableEq

/-- The JSON body of a course metadata response. -/
structure CourseJson where
  id : Nat
  name : String
  course_code : String
  term : Option Term
  published : Bool
deriving DecidableEq

/-- The course record assembled by `fetchAllCourses` (`term: c.term || {}`
is modelled by keeping the optional term). -/
structure Course where
  id : Nat
  name : String
  course_code : String
  term : Option Term
  published : Bool
deriving DecidableEq

/-- `courses.push({id: c.id, name: c.name, course_code: c.course_code,
term: c.term || {}, published: c.published})`. -/
def mkCourse (c : CourseJson) : Course :=
  ⟨c.id, c.name, c.course_code, c.term, c.published⟩

/-- Outcome of one course metadata fetch: a rejected promise (network or
JSON-parse failure), or a response with an HTTP status and parsed body. -/
inductive MetaOutcome where
  | reject
  | resp (status : Nat) (body : CourseJson)

/-- The upstream world seen by the catalog builder: enrollment pages by
URL, and one metadata outcome per course id. -/
structure CatalogWorld where
  enroll : String → PageResp Enrollment
  courseMeta : Nat → MetaOutcome

/-- `resp.ok` for node-fetch: status in [200, 300). -/
def isOkStatus (s : Nat) : Bool := 200 ≤ s && s < 300

/-- The body of the per-course `try` block in `fetchAllCourses`: a 2xx
response yields a pushed course, a 403/404 hits `continue` (no course), and
any other status or a rejected fetch throws. -/
def courseMetaBody (w : CatalogWorld) (id : Nat) : Except String (Option Course) :=
  match w.courseMeta id with
  | MetaOutcome.reject => Except.error ("fetch rejected")
  | MetaOutcome.resp status body =>
    if isOkStatus status then Except.ok (some (mkCourse body))
    else if status = 403 || status = 404 then Except.ok none
    else Except.error ("Course " ++ toString id ++ " metadata fetch failed: " ++ toString status)

/-- The `for (const id of uniqueIds)` loop of `fetchAllCourses`.  Returns
the list of course ids for which a metadata fetch was issued, and the
courses pushed.  The surrounding `catch (e) { console.warn(e) }` swallows
every thrown error, so the loop always continues. -/
def fetchCourseMetas (w : CatalogWorld) : List Nat → List Nat × List Course
  | [] => ([], [])
  | id :: rest =>
    let r : Option Course :=
      match courseMetaBody w id with
      | Except.error _ => none
      | Except.ok o => o
    let tail := fetchCourseMetas w rest
    (id :: tail.1,
      match r with
      | some c => c :: tail.2
      | none => tail.2)

/-- `[...new Set(xs)]`: JS set insertion order, keeping the first
occurrence of each element. -/
def uniqueIds (xs : List Nat) : List Nat :=
  xs.foldl (fun acc x => if x ∈ acc then acc else acc ++ [x]) []

/-- `fetchAllCourses`: paginate the enrollment listing (a non-ok page or a
never-ending chain throws), de-duplicate to unique course ids, then run the
metadata loop.  The result carries the metadata fetch log and the courses. -/
def fetchAllCourses (w : CatalogWorld) (fuel : Nat) (startUrl : String) :
    Except String (List Nat × List Course) :=
  match paginate w.enroll fuel startUrl [] with
  | none => Except.error ("Enrollment fetch failed")
  | some enrollments =>
    Except.ok (fetchCourseMetas w (uniqueIds (enrollments.map (fun e => e.course_id))))

/-- The `GET /api/courses` endpoint: its `try/catch` turns any error thrown
by `fetchAllCourses` into a 500 error response. -/
def apiCourses (w : CatalogWorld) (fuel : Nat) (startUrl : String) :
    Except Nat (List Course) :=
  match fetchAllCourses w fuel startUrl with
  | Except.error _ => Except.error 500
  | Except.ok r => Except.ok r.2

/-- One entry appended to the archive: `archive.append(stream, {name})`. -/
structure ArchiveEntry where
  path : String
  stream : String
deriving DecidableEq

/-- An event written to the SSE progress channel. -/
inductive Event where
  | progress (done : Nat) (total : Nat) (message : String)
  | doneEvent
deriving DecidableEq

/-- One upstream fetch issued by the download handler. -/
inductive FetchCall where
  | modulesList (courseId : Nat)
  | fileMeta (fileId : Nat)
  | fileStream (url : String)
  | syllabusAtts (courseId : Nat)
  | pagesList (courseId : Nat)
  | pageAtts (courseId : Nat) (pageUrl : String)
  | assignmentsList (courseId : Nat)
  | submissionsGet (courseId : Nat) (assignmentId : Nat)
deriving DecidableEq

/-- A module item as listed with `include[]=items`. -/
structure ModuleItem where
  type : String
  content_id : Option Nat
deriving DecidableEq

/-- A course module with its items. -/
structure CanvasModule where
  name : String
  items : List ModuleItem
deriving DecidableEq

/-- File metadata from `GET /api/v1/files/:id`. -/
structure FileMeta where
  url : String
  display_name : String
deriving DecidableEq

/-- An attachment record (syllabus, page, or submission). -/
structure Attachment where
  url : String
  filename : String
deriving DecidableEq

/-- A wiki page as listed by `GET /courses/:id/pages`. -/
structure PageInfo where
  title : String
  url : String
deriving DecidableEq

/-- An assignment as listed by `GET /courses/:id/assignments`. -/
structure Assignment where
  id : Nat
  name : String
deriving DecidableEq

/-- A submission record; `attachments` may be absent. -/
structure Submission where
  attachments : Option (List Attachment)
deriving DecidableEq

/-- The upstream world seen by the download handler.  Each field is one
endpoint; `none` models a rejected fetch or a body whose iteration throws. -/
structure DownloadWorld where
  modulesList : Nat → Option (List CanvasModule)
  fileMeta : Nat → Option FileMeta
  fileStream : String → Option String
  syllabusAtts : Nat → Option (List Attachment)
  pagesList : Nat → Option (List PageInfo)
  pageAtts : Nat → String → Option (List Attachment)
  assignments : Nat → Option (List Assignment)
  submissions : Nat → Nat → Option (List Submission)

/-- `name.replace(/[\/\\]/g, "_")`: every `/` or `\` character becomes
`_`. -/
def sanitizeName (s : String) : String :=
  String.mk (s.data.map (fun c => if c = '/' || c = '\\' then '_' else c))

/-- Archive path for a module file:
`` `${courseId}/Modules/${safeMod}/${meta.display_name}` ``. -/
def modulePath (courseId : Nat) (safeMod displayName : String) : String :=
  toString courseId ++ "/Modules/" ++ safeMod ++ "/" ++ displayName

/-- Archive path for a syllabus attachment:
`` `${courseId}/Syllabus/${a.filename}` ``. -/
def syllabusPath (courseId : Nat) (filename : String) : String :=
  toString courseId ++ "/Syllabus/" ++ filename

/-- Archive path for a page attachment:
`` `${courseId}/Pages/${safeTitle}/${a.filename}` ``. -/
def pagesPath (courseId : Nat) (safeTitle filename : String) : String :=
  toString courseId ++ "/Pages/" ++ safeTitle ++ "/" ++ filename

/-- Archive path for a submission attachment:
`` `${courseId}/Submissions/${a.name}/${att.filename}` ``. -/
def submissionsPath (courseId : Nat) (assignmentName filename : String) : String :=
  toString courseId ++ "/Submissions/" ++ assignmentName ++ "/" ++ filename

/-- Result of processing one (category, course) unit: the upstream fetches
issued, the entries appended to the archive, and whether the unit body ran
to its end (`ok = false` means an exception was thrown part-way; entries
appended before the throw are kept, which matches the streaming archive). -/
structure UnitResult where
  log : List FetchCall
  entries : List ArchiveEntry
  ok : Bool
deriving DecidableEq

/-- `item.content_id` truthiness: absent and `0` are both falsy. -/
def itemContentId (it : ModuleItem) : Nat := it.content_id.getD 0

/-- The inner `for (const item of m.items)` loop of the modules fetcher:
each item of type `"File"` with a truthy `content_id` gets a file-metadata
fetch and then a byte-stream fetch; either failing throws. -/
def processModuleItems (w : DownloadWorld) (courseId : Nat) (safeMod : String) :
    List ModuleItem → UnitResult
  | [] => ⟨[], [], true⟩
  | it :: rest =>
    if it.type == "File" && itemContentId it != 0 then
      match w.fileMeta (itemContentId it) with
      | none => ⟨[FetchCall.fileMeta (itemContentId it)], [], false⟩
      | some meta =>
        match w.fileStream meta.url with
        | none => ⟨[FetchCall.fileMeta (itemContentId it), FetchCall.fileStream meta.url], [], false⟩
        | some s =>
          let r := processModuleItems w courseId safeMod rest
          ⟨FetchCall.fileMeta (itemContentId it) :: FetchCall.fileStream meta.url :: r.log,
            ⟨modulePath courseId safeMod meta.display_name, s⟩ :: r.entries, r.ok⟩
    else processModuleItems w courseId safeMod rest

/-- The `for (const m of modules)` loop: each module's name is sanitized
and its items are processed; a throw inside one module stops the rest. -/
def processModulesList (w : DownloadWorld) (courseId : Nat) : List CanvasModule → UnitResult
  | [] => ⟨[], [], true⟩
  | m :: rest =>
    let r1 := processModuleItems w courseId (sanitizeName m.name) m.items
    if r1.ok then
      let r2 := processModulesList w courseId rest
      ⟨r1.log ++ r2.log, r1.entries ++ r2.entries, r2.ok⟩
    else r1

/-- One modules unit: the top-level module listing fetch (whose failure
throws), then the module loop. -/
def processModulesUnit (w : DownloadWorld) (courseId : Nat) : UnitResult :=
  match w.modulesList courseId with
  | none => ⟨[FetchCall.modulesList courseId], [], false⟩
  | some mods =>
    let r := processModulesList w courseId mods
    ⟨FetchCall.modulesList courseId :: r.log, r.entries, r.ok⟩

/-- An attachment resolution loop shared in shape by the syllabus, pages
and submissions fetchers: fetch each attachment's URL and append the entry
at the path given by `pathOf`; a failed stream fetch throws. -/
def processAtts (w : DownloadWorld) (pathOf : Attachment → String) :
    List Attachment → UnitResult
  | [] => ⟨[], [], true⟩
  | a :: rest =>
    match w.fileStream a.url with
    | none => ⟨[FetchCall.fileStream a.url], [], false⟩
    | some s =>
      let r := processAtts w pathOf rest
      ⟨FetchCall.fileStream a.url :: r.log, ⟨pathOf a, s⟩ :: r.entries, r.ok⟩

/-- One syllabus unit: fetch the syllabus attachment list (failure throws),
then resolve each attachment. -/
def processSyllabusUnit (w : DownloadWorld) (courseId : Nat) : UnitResult :=
  match w.syllabusAtts courseId with
  | none => ⟨[FetchCall.syllabusAtts courseId], [], false⟩
  | some atts =>
    let r := processAtts w (fun a => syllabusPath courseId a.filename) atts
    ⟨FetchCall.syllabusAtts courseId :: r.log, r.entries, r.ok⟩

/-- The `for (const p of pages)` loop: per page, fetch its attachment list
(failure throws) and resolve each attachment under the sanitized title. -/
def processPagesList (w : DownloadWorld) (courseId : Nat) : List PageInfo → UnitResult
  | [] => ⟨[], [], true⟩
  | p :: rest =>
    match w.pageAtts courseId p.url with
    | none => ⟨[FetchCall.pageAtts courseId p.url], [], false⟩
    | some atts =>
      let r1 := processAtts w (fun a => pagesPath courseId (sanitizeName p.title) a.filename) atts
      if r1.ok then
        let r2 := processPagesList w courseId rest
        ⟨FetchCall.pageAtts courseId p.url :: (r1.log ++ r2.log),
          r1.entries ++ r2.entries, r2.ok⟩
      else ⟨FetchCall.pageAtts courseId p.url :: r1.log, r1.entries, false⟩

/-- One pages unit: the top-level page listing fetch (failure throws), then
the page loop. -/
def processPagesUnit (w : DownloadWorld) (courseId : Nat) : UnitResult :=
  match w.pagesList courseId with
  | none => ⟨[FetchCall.pagesList courseId], [], false⟩
  | some pages =>
    let r := processPagesList w courseId pages
    ⟨FetchCall.pagesList courseId :: r.log, r.entries, r.ok⟩

/-- The `for (const a of asgs)` loop: per assignment, fetch the caller's
submission (failure throws); only the first submission's attachments (when
present) are resolved. -/
def processAssignments (w : DownloadWorld) (courseId : Nat) : List Assignment → UnitResult
  | [] => ⟨[], [], true⟩
  | a :: rest =>
    match w.submissions courseId a.id with
    | none => ⟨[FetchCall.submissionsGet courseId a.id], [], false⟩
    | some subs =>
      let r1 :=
        match subs.head? with
        | none => (⟨[], [], true⟩ : UnitResult)
        | some sub =>
          match sub.attachments with
          | none => (⟨[], [], true⟩ : UnitResult)
          | some atts =>
            processAtts w (fun att => submissionsPath courseId a.name att.filename) atts
      if r1.ok then
        let r2 := processAssignments w courseId rest
        ⟨FetchCall.submissionsGet courseId a.id :: (r1.log ++ r2.log),
          r1.entries ++ r2.entries, r2.ok⟩
      else ⟨FetchCall.submissionsGet courseId a.id :: r1.log, r1.entries, false⟩

/-- One submissions unit: the top-level assignment listing fetch (failure
throws), then the assignment loop. -/
def processSubmissionsUnit (w : DownloadWorld) (courseId : Nat) : UnitResult :=
  match w.assignments courseId with
  | none => ⟨[FetchCall.assignmentsList courseId], [], false⟩
  | some asgs =>
    let r := processAssignments w courseId asgs
    ⟨FetchCall.assignmentsList courseId :: r.log, r.entries, r.ok⟩

/-- Whether the SSE channel for the job is still registered after `t`
units have completed: `cp = some k` models the client disconnecting (and
`sseClients.delete` firing) once `k` units are done; `none` means it stays
registered. -/
def clientOpen (cp : Option Nat) (t : Nat) : Bool :=
  match cp with
  | none => true
  | some k => t < k

/-- The progress event written by `sendProgress` after a unit completes,
or nothing when the channel is no longer registered (`if (!client)
return`).  `doneBefore` is the counter value before the `done++`. -/
def progressEventsFor (cp : Option Nat) (doneBefore total : Nat) (message : String) :
    List Event :=
  if clientOpen cp doneBefore then [Event.progress (doneBefore + 1) total message] else []

/-- The download handler state threaded through the four category loops:
the `done` counter, the events actually written to the SSE channel, the
archive entries appended, the upstream fetches issued, and the aborted
flag (a thrown exception, after which nothing further runs). -/
structure DState where
  done : Nat
  events : List Event
  entries : List ArchiveEntry
  log : List FetchCall
  aborted : Bool
deriving DecidableEq

/-- The state at the start of the download handler. -/
def initState : DState := ⟨0, [], [], [], false⟩

/-- One `for (const courseId of selections.X)` loop of the download
handler: process the unit; on success `done++` and `sendProgress`; a
thrown exception (unit `ok = false`) keeps the entries and fetches made so
far and aborts everything after it. -/
def runLoop (procUnit : Nat → UnitResult) (msg : Nat → String) (cp : Option Nat)
    (total : Nat) : List Nat → DState → DState
  | [], st => st
  | c :: rest, st =>
    if st.aborted then st
    else
      let u := procUnit c
      if u.ok then
        runLoop procUnit msg cp total rest
          { done := st.done + 1
            events := st.events ++ progressEventsFor cp st.done total (msg c)
            entries := st.entries ++ u.entries
            log := st.log ++ u.log
            aborted := false }
      else
        { st with entries := st.entries ++ u.entries, log := st.log ++ u.log, aborted := true }

/-- The selection submitted with the download request. -/
structure Selections where
  modules : List Nat
  syllabus : List Nat
  pages : List Nat
  submissions : List Nat

/-- `total`: the count of selected (category, course) pairs. -/
def totalOf (sel : Selections) : Nat :=
  sel.modules.length + sel.syllabus.length + sel.pages.length + sel.submissions.length

/-- The state after the `for (const courseId of selections.modules)` loop. -/
def afterModules (w : DownloadWorld) (cp : Option Nat) (sel : Selections) : DState :=
  runLoop (processModulesUnit w) (fun c => "Modules for " ++ toString c)
    cp (totalOf sel) sel.modules initState

/-- The state after the syllabus loop (which runs on the modules loop's
state). -/
def afterSyllabus (w : DownloadWorld) (cp : Option Nat) (sel : Selections) : DState :=
  runLoop (processSyllabusUnit w) (fun c => "Syllabus for " ++ toString c)
    cp (totalOf sel) sel.syllabus (afterModules w cp sel)

/-- The state after the pages loop. -/
def afterPages (w : DownloadWorld) (cp : Option Nat) (sel : Selections) : DState :=
  runLoop (processPagesUnit w) (fun c => "Pages for " ++ toString c)
    cp (totalOf sel) sel.pages (afterSyllabus w cp sel)

/-- The state after the submissions loop, i.e. after all four category
loops of the download handler. -/
def afterSubs (w : DownloadWorld) (cp : Option Nat) (sel : Selections) : DState :=
  runLoop (processSubmissionsUnit w) (fun c => "Submissions for " ++ toString c)
    cp (totalOf sel) sel.submissions (afterPages w cp sel)

/-- The body of `POST /download` after validation: the four category loops
in order (modules, syllabus, pages, submissions), then `archive.finalize()`
and the `end` handler, which writes the terminal `done` event only when the
handler did not throw and the SSE client is still registered. -/
def runDownload (w : DownloadWorld) (cp : Option Nat) (sel : Selections) : DState :=
  if (afterSubs w cp sel).aborted then afterSubs w cp sel
  else if clientOpen cp (totalOf sel) then
    { afterSubs w cp sel with events := (afterSubs w cp sel).events ++ [Event.doneEvent] }
  else afterSubs w cp sel

/-- Whether every selected (category, course) unit's processing runs to
its end without a thrown exception. -/
def allOk (w : DownloadWorld) (sel : Selections) : Bool :=
  sel.modules.all (fun c => (processModulesUnit w c).ok)
    && sel.syllabus.all (fun c => (processSyllabusUnit w c).ok)
    && sel.pages.all (fun c => (processPagesUnit w c).ok)
    && sel.submissions.all (fun c => (processSubmissionsUnit w c).ok)

/-- The `POST /download` validation: `if (!downloadId ||
!sseClients.has(downloadId)) return res.status(400)`.  A missing or empty
(falsy) id, or an id with no registered SSE channel, is rejected;
otherwise the download body runs. -/
def downloadHandler (sse : List String) (did : Option String) (w : DownloadWorld)
    (cp : Option Nat) (sel : Selections) : Except Nat DState :=
  match did with
  | none => Except.error 400
  | some id =>
    if id = "" then Except.error 400
    else if sse.contains id then Except.ok (runDownload w cp sel)
    else Except.error 400

/-- The JSON payload written by `sendProgress` (JSON.stringify modelled
without string escaping, which no claim depends on). -/
def progressJson (done total : Nat) (message : String) : String :=
  "\x7b\"done\":" ++ toString done ++ ",\"total\":" ++ toString total ++
    ",\"message\":\"" ++ message ++ "\"\x7d"

/-- `sendProgress(id, done, total, message)`: look the id up in the
`sseClients` map; if absent, return without writing; otherwise write the
two SSE lines to that client. -/
def sendProgressWrites (sseClients : List (String × Nat)) (id : String)
    (done total : Nat) (message : String) : List String :=
  match sseClients.lookup id with
  | none => []
  | some _ =>
    ["event: progress\n", "data: " ++ progressJson done total message ++ "\n\n"]

/-- The `done` values of the progress events of a trace, in order. -/
def progressDones : List Event → List Nat
  | [] => []
  | Event.progress d _ _ :: rest => d :: progressDones rest
  | Event.doneEvent :: rest => progressDones rest

/-- How many progress events have actually been written once the counter
is at `d`: all of them while the channel is registered, frozen at the cut
point after a cancellation. -/
def writtenCount (cp : Option Nat) (d : Nat) : Nat :=
  match cp with
  | none => d
  | some k => min k d

/-- A concrete world for the paginator: three pages linked by `rel="next"`
headers (the first header also carries a `rel="prev"` entry). -/
def wPages : String → PageResp Nat := fun u =>
  if u = "u1" then ⟨true, [1, 2], some ("<u2>; rel=\"next\", <u0>; rel=\"prev\"")⟩
  else if u = "u2" then ⟨true, [3], some ("<u3>; rel=\"next\"")⟩
  else if u = "u3" then ⟨true, [4, 5], some ("<u2>; rel=\"prev\"")⟩
  else ⟨false, [], none⟩

/-- A download world where course 1 has one module whose single File item
has no retrievable metadata (the `/api/v1/files/10` fetch rejects), while
course 2's module file resolves fine. -/
def wC1 : DownloadWorld where
  modulesList := fun c =>
    if c = 1 then some [⟨"Week 1", [⟨"File", some 10⟩]⟩]
    else if c = 2 then some [⟨"Week A", [⟨"File", some 20⟩]⟩]
    else none
  fileMeta := fun f => if f = 20 then some ⟨"u20", "notes.pdf"⟩ else none
  fileStream := fun u => if u = "u20" then some ("B20") else none
  syllabusAtts := fun _ => none
  pagesList := fun _ => none
  pageAtts := fun _ _ => none
  assignments := fun _ => none
  submissions := fun _ _ => none

/-- Selection for `wC1`: modules of courses 1 and 2. -/
def selC1 : Selections := ⟨[1, 2], [], [], []⟩

/-- A download world where the modules unit of course 1 succeeds (empty
module list) and the syllabus listing for course 2 fails. -/
def wC3 : DownloadWorld where
  modulesList := fun c => if c = 1 then some [] else none
  fileMeta := fun _ => none
  fileStream := fun _ => none
  syllabusAtts := fun _ => none
  pagesList := fun _ => none
  pageAtts := fun _ _ => none
  assignments := fun _ => none
  submissions := fun _ _ => none

/-- Selection for `wC3`: modules of course 1, syllabus of course 2. -/
def selC3 : Selections := ⟨[1], [2], [], []⟩

/-- A download world where course 7 has a module named `Unit 1/Intro`
containing a file displayed as `a\b.pdf`, and a syllabus attachment also
named `a\b.pdf`. -/
def wC4 : DownloadWorld where
  modulesList := fun c => if c = 7 then some [⟨"Unit 1/Intro", [⟨"File", some 40⟩]⟩] else none
  fileMeta := fun f => if f = 40 then some ⟨"u40", "a\\b.pdf"⟩ else none
  fileStream := fun u => if u = "u40" then some ("B40")
    else if u = "u41" then some ("B41") else none
  syllabusAtts := fun c => if c = 7 then some [⟨"u41", "a\\b.pdf"⟩] else none
  pagesList := fun _ => none
  pageAtts := fun _ _ => none
  assignments := fun _ => none
  submissions := fun _ _ => none

/-- Selection for `wC4`: modules and syllabus of course 7. -/
def selC4 : Selections := ⟨[7], [7], [], []⟩

/-- A download world where every selected unit succeeds: course 1 has an
empty module list and an empty syllabus attachment list. -/
def wOk : DownloadWorld where
  modulesList := fun c => if c = 1 then some [] else none
  fileMeta := fun _ => none
  fileStream := fun _ => none
  syllabusAtts := fun c => if c = 1 then some [] else none
  pagesList := fun _ => none
  pageAtts := fun _ _ => none
  assignments := fun _ => none
  submissions := fun _ _ => none

/-- Selection for `wOk`: modules and syllabus of course 1 (total 2). -/
def selOk : Selections := ⟨[1], [1], [], []⟩

/-- A download world where every course has an empty module list, so each
modules unit issues exactly its listing fetch and succeeds. -/
def wC9 : DownloadWorld where
  modulesList := fun _ => some []
  fileMeta := fun _ => none
  fileStream := fun _ => none
  syllabusAtts := fun _ => none
  pagesList := fun _ => none
  pageAtts := fun _ _ => none
  assignments := fun _ => none
  submissions := fun _ _ => none

/-- Selection for `wC9`: modules of courses 1 through 5 (total 5). -/
def selC9 : Selections := ⟨[1, 2, 3, 4, 5], [], [], []⟩

/-- A catalog world: one enrollment page listing courses 1 and 2; course
1's metadata fetch returns HTTP 500, course 2's returns 200. -/
def wC2 : CatalogWorld where
  enroll := fun _ => ⟨true, [⟨1⟩, ⟨2⟩], none⟩
  courseMeta := fun id =>
    if id = 1 then MetaOutcome.resp 500 ⟨1, "Course One", "CS 1", none, true⟩
    else if id = 2 then MetaOutcome.resp 200 ⟨2, "Course Two", "CS 2", none, true⟩
    else MetaOutcome.reject

/-- A download world in which every endpoint fails; never reached by an
empty selection. -/
def wEmptyD : DownloadWorld where
  modulesList := fun _ => none
  fileMeta := fun _ => none
  fileStream := fun _ => none
  syllabusAtts := fun _ => none
  pagesList := fun _ => none
  pageAtts := fun _ _ => none
  assignments := fun _ => none
  submissions := fun _ _ => none

/-- The empty selection: zero (category, course) pairs. -/
def selEmpty : Selections := ⟨[], [], [], []⟩

/-- `progressDones` distributes over trace concatenation. -/
theorem progressDones_append (a b : List Event) :
    progressDones (a ++ b) = progressDones a ++ progressDones b := by
  induction a with
  | nil => rfl
  | cons e rest ih => cases e <;> simp [progressDones, ih]

/-- `List.range' 1 n` is ordered by non-decreasing values. -/
theorem chain_le_range' (s n : Nat) :
    List.Chain' (fun a b => a ≤ b) (List.range' s n) :=
  ((List.pairwise_lt_range' s n).imp (fun h => Nat.le_of_lt h)).chain'

/-- The `uniqueIds` fold keeps its accumulator duplicate-free and collects
exactly the elements of the accumulator and of the input. -/
theorem uniqueIds_go (xs : List Nat) :
    ∀ acc : List Nat, acc.Nodup →
      (xs.foldl (fun acc x => if x ∈ acc then acc else acc ++ [x]) acc).Nodup
      ∧ (∀ a, a ∈ xs.foldl (fun acc x => if x ∈ acc then acc else acc ++ [x]) acc ↔
          a ∈ acc ∨ a ∈ xs) := by
  induction xs with
  | nil =>
    intro acc h
    constructor
    · simpa using h
    · intro a; simp
  | cons x rest ih =>
    intro acc h
    simp only [List.foldl_cons]
    by_cases hx : x ∈ acc
    · rw [if_pos hx]
      obtain ⟨h1, h2⟩ := ih acc h
      refine ⟨h1, fun a => ?_⟩
      rw [h2 a, List.mem_cons]
      constructor
      · rintro (ha | ha)
        · exact Or.inl ha
        · exact Or.inr (Or.inr ha)
      · rintro (ha | ha | ha)
        · exact Or.inl ha
        · exact Or.inl (by rw [ha]; exact hx)
        · exact Or.inr ha
    · rw [if_neg hx]
      have hnd : (acc ++ [x]).Nodup := by
        rw [List.nodup_append]
        refine ⟨h, List.nodup_singleton x, ?_⟩
        intro a ha hax
        rw [List.mem_singleton] at hax
        subst hax
        exact hx ha
      obtain ⟨h1, h2⟩ := ih (acc ++ [x]) hnd
      refine ⟨h1, fun a => ?_⟩
      rw [h2 a, List.mem_append, List.mem_singleton, List.mem_cons]
      tauto

/-- `uniqueIds` yields a duplicate-free list. -/
theorem uniqueIds_nodup (xs : List Nat) : (uniqueIds xs).Nodup :=
  (uniqueIds_go xs [] List.nodup_nil).1

/-- `uniqueIds` preserves membership. -/
theorem mem_uniqueIds (xs : List Nat) (a : Nat) : a ∈ uniqueIds xs ↔ a ∈ xs := by
  have h := (uniqueIds_go xs [] List.nodup_nil).2 a
  simpa [uniqueIds] using h

/-- The metadata loop issues exactly one fetch per id of its input list,
in order, whatever the outcomes. -/
theorem fetchCourseMetas_log (w : CatalogWorld) :
    ∀ ids : List Nat, (fetchCourseMetas w ids).1 = ids := by
  intro ids
  induction ids with
  | nil => rfl
  | cons id rest ih => simp [fetchCourseMetas, ih]

/-- The metadata loop returns exactly the courses of the ids whose `try`
body produced a pushed course; every thrown error is swallowed by the
`catch` and the loop continues. -/
theorem fetchCourseMetas_courses (w : CatalogWorld) :
    ∀ ids : List Nat, (fetchCourseMetas w ids).2
      = ids.filterMap (fun id =>
          match courseMetaBody w id with
          | Except.ok o => o
          | Except.error _ => none) := by
  intro ids
  induction ids with
  | nil => rfl
  | cons id rest ih =>
    simp only [fetchCourseMetas, List.filterMap_cons]
    cases hm : courseMetaBody w id with
    | error e => simp [hm, ih]
    | ok o => cases o <;> simp [hm, ih]

/-- Following a finite chain of ok pages linked by `rel="next"` headers,
the pagination loop returns the concatenation of all page bodies in page
order. -/
theorem paginate_chain {α : Type} (w : String → PageResp α) :
    ∀ (rest : List String) (u : String) (fuel : Nat) (acc : List α),
      ChainFrom w u rest = true → rest.length < fuel →
      paginate w fuel u acc
        = some (acc ++ ((u :: rest).map (fun x => (w x).body)).flatten) := by
  intro rest
  induction rest with
  | nil =>
    intro u fuel acc hc hf
    cases fuel with
    | zero => simp at hf
    | succ fuel =>
      simp only [ChainFrom, Bool.and_eq_true, Option.isNone_iff_eq_none] at hc
      simp [paginate, hc.1, hc.2]
  | cons v vs ih =>
    intro u fuel acc hc hf
    cases fuel with
    | zero => simp at hf
    | succ fuel =>
      simp only [ChainFrom, Bool.and_eq_true] at hc
      obtain ⟨⟨hok, hnext⟩, hchain⟩ := hc
      have hnext' : getNextPage (w u).link = some v := by
        exact eq_of_beq hnext
      simp only [paginate, hok, if_true, hnext']
      rw [ih v fuel (acc ++ (w u).body) hchain (by simpa using Nat.lt_of_succ_lt_succ hf)]
      simp

/-- Once an exception has been thrown, a category loop does nothing. -/
theorem runLoop_of_aborted (p : Nat → UnitResult) (m : Nat → String) (cp : Option Nat)
    (total : Nat) : ∀ (l : List Nat) (st : DState), st.aborted = true →
      runLoop p m cp total l st = st := by
  intro l st h
  cases l with
  | nil => rfl
  | cons c rest => simp [runLoop, h]

/-- A category loop finishes without a thrown exception iff it started
without one and every unit in it processes ok. -/
theorem runLoop_aborted_iff (p : Nat → UnitResult) (m : Nat → String) (cp : Option Nat)
    (total : Nat) : ∀ (l : List Nat) (st : DState),
      (runLoop p m cp total l st).aborted = false ↔
        (st.aborted = false ∧ l.all (fun c => (p c).ok) = true) := by
  intro l
  induction l with
  | nil =>
    intro st
    simp [runLoop]
  | cons c rest ih =>
    intro st
    by_cases hab : st.aborted = true
    · rw [runLoop_of_aborted p m cp total _ st hab]
      simp [hab]
    · have hab' : st.aborted = false := by
        revert hab; cases st.aborted <;> simp
      by_cases hok : (p c).ok = true
      · simp only [runLoop, hab', Bool.false_eq_true, if_false, hok, if_true]
        rw [ih]
        simp [hab', hok]
      · have hok' : (p c).ok = false := by
          revert hok; cases (p c).ok <;> simp
        simp [runLoop, hab', hok', List.all_cons]

/-- When every unit processes ok, the loop increments `done` once per
unit. -/
theorem runLoop_done_of_ok (p : Nat → UnitResult) (m : Nat → String) (cp : Option Nat)
    (total : Nat) : ∀ (l : List Nat) (st : DState), st.aborted = false →
      l.all (fun c => (p c).ok) = true →
      (runLoop p m cp total l st).done = st.done + l.length := by
  intro l
  induction l with
  | nil =>
    intro st _ _
    simp [runLoop]
  | cons c rest ih =>
    intro st hab hall
    rw [List.all_cons, Bool.and_eq_true] at hall
    simp only [runLoop, hab, Bool.false_eq_true, if_false, hall.1, if_true]
    rw [ih _ rfl hall.2]
    simp only [List.length_cons]
    omega

/-- `done` never advances past one increment per unit. -/
theorem runLoop_done_le (p : Nat → UnitResult) (m : Nat → String) (cp : Option Nat)
    (total : Nat) : ∀ (l : List Nat) (st : DState),
      (runLoop p m cp total l st).done ≤ st.done + l.length := by
  intro l
  induction l with
  | nil =>
    intro st
    simp [runLoop]
  | cons c rest ih =>
    intro st
    by_cases hab : st.aborted = true
    · rw [runLoop_of_aborted p m cp total _ st hab]
      simp
    · have hab' : st.aborted = false := by
        revert hab; cases st.aborted <;> simp
      by_cases hok : (p c).ok = true
      · simp only [runLoop, hab', Bool.false_eq_true, if_false, hok, if_true]
        refine le_trans (ih _) ?_
        dsimp only
        simp only [List.length_cons]
        omega
      · have hok' : (p c).ok = false := by
          revert hok; cases (p c).ok <;> simp
        simp only [runLoop, hab', Bool.false_eq_true, if_false, hok', if_true]
        simp only [List.length_cons]
        omega

/-- `done` never decreases across a category loop. -/
theorem runLoop_done_ge (p : Nat → UnitResult) (m : Nat → String) (cp : Option Nat)
    (total : Nat) : ∀ (l : List Nat) (st : DState),
      st.done ≤ (runLoop p m cp total l st).done := by
  intro l
  induction l with
  | nil =>
    intro st
    simp [runLoop]
  | cons c rest ih =>
    intro st
    by_cases hab : st.aborted = true
    · rw [runLoop_of_aborted p m cp total _ st hab]
    · have hab' : st.aborted = false := by
        revert hab; cases st.aborted <;> simp
      by_cases hok : (p c).ok = true
      · simp only [runLoop, hab', Bool.false_eq_true, if_false, hok, if_true]
        refine le_trans ?_ (ih _)
        dsimp only
        omega
      · have hok' : (p c).ok = false := by
          revert hok; cases (p c).ok <;> simp
        simp [runLoop, hab', hok']

/-- A loop that throws did not account for all of its units: `done` stays
strictly below the full count. -/
theorem runLoop_done_lt_of_abort (p : Nat → UnitResult) (m : Nat → String) (cp : Option Nat)
    (total : Nat) : ∀ (l : List Nat) (st : DState), st.aborted = false →
      (runLoop p m cp total l st).aborted = true →
      (runLoop p m cp total l st).done < st.done + l.length := by
  intro l
  induction l with
  | nil =>
    intro st hab habr
    simp only [runLoop] at habr
    rw [hab] at habr
    cases habr
  | cons c rest ih =>
    intro st hab habr
    by_cases hok : (p c).ok = true
    · simp only [runLoop, hab, Bool.false_eq_true, if_false, hok, if_true] at habr ⊢
      have h := ih _ rfl habr
      refine lt_of_lt_of_le h ?_
      dsimp only
      simp only [List.length_cons]
      omega
    · have hok' : (p c).ok = false := by
        revert hok; cases (p c).ok <;> simp
      simp only [runLoop, hab, Bool.false_eq_true, if_false, hok', if_true]
      simp only [List.length_cons]
      omega

/-- The `done` values contributed by one `sendProgress` call. -/
theorem progressEventsFor_dones (cp : Option Nat) (d total : Nat) (msg : String) :
    progressDones (progressEventsFor cp d total msg)
      = if clientOpen cp d then [d + 1] else [] := by
  unfold progressEventsFor
  split
  · rfl
  · rfl

/-- No terminal event is ever produced by `sendProgress`. -/
theorem doneEvent_not_mem_progressEventsFor (cp : Option Nat) (d total : Nat) (msg : String) :
    Event.doneEvent ∉ progressEventsFor cp d total msg := by
  unfold progressEventsFor
  split
  · simp
  · simp

/-- While the channel is registered, the written-events count tracks
`done`. -/
theorem writtenCount_eq_of_open (cp : Option Nat) (d : Nat)
    (h : clientOpen cp d = true) : writtenCount cp d = d := by
  cases cp with
  | none => rfl
  | some k =>
    simp only [clientOpen] at h
    have hk := of_decide_eq_true h
    simp only [writtenCount]
    omega

/-- A `done++` after the channel is gone does not change the
written-events count. -/
theorem writtenCount_step_closed (cp : Option Nat) (d : Nat)
    (h : clientOpen cp d = false) : writtenCount cp (d + 1) = writtenCount cp d := by
  cases cp with
  | none => simp [clientOpen] at h
  | some k =>
    simp only [clientOpen] at h
    have hk := of_decide_eq_false h
    simp only [writtenCount]
    omega

/-- A `done++` while the channel is registered advances the written-events
count by one. -/
theorem writtenCount_step_open (cp : Option Nat) (d : Nat)
    (h : clientOpen cp d = true) : writtenCount cp (d + 1) = d + 1 := by
  cases cp with
  | none => rfl
  | some k =>
    simp only [clientOpen] at h
    have hk := of_decide_eq_true h
    simp only [writtenCount]
    omega

/-- Appending `n + 1` to an initial segment extends it. -/
theorem range'_one_concat (n : Nat) :
    List.range' 1 n ++ [n + 1] = List.range' 1 (n + 1) := by
  rw [List.range'_concat]
  simp [Nat.add_comm]

/-- Invariant of every category loop: the progress events written so far
carry exactly the `done` values `1, 2, ...` up to the written-events count,
and no terminal event has been written. -/
theorem runLoop_events_inv (p : Nat → UnitResult) (m : Nat → String) (cp : Option Nat)
    (total : Nat) : ∀ (l : List Nat) (st : DState),
      progressDones st.events = List.range' 1 (writtenCount cp st.done) →
      Event.doneEvent ∉ st.events →
      progressDones (runLoop p m cp total l st).events
        = List.range' 1 (writtenCount cp (runLoop p m cp total l st).done)
      ∧ Event.doneEvent ∉ (runLoop p m cp total l st).events := by
  intro l
  induction l with
  | nil =>
    intro st h1 h2
    exact ⟨h1, h2⟩
  | cons c rest ih =>
    intro st h1 h2
    by_cases hab : st.aborted = true
    · rw [runLoop_of_aborted p m cp total _ st hab]
      exact ⟨h1, h2⟩
    · have hab' : st.aborted = false := by
        revert hab; cases st.aborted <;> simp
      by_cases hok : (p c).ok = true
      · simp only [runLoop, hab', Bool.false_eq_true, if_false, hok, if_true]
        refine ih _ ?_ ?_
        · dsimp only
          rw [progressDones_append, h1, progressEventsFor_dones]
          by_cases hco : clientOpen cp st.done = true
          · rw [if_pos hco, writtenCount_step_open cp st.done hco,
              writtenCount_eq_of_open cp st.done hco]
            exact range'_one_concat st.done
          · have hco' : clientOpen cp st.done = false := by
              revert hco; cases clientOpen cp st.done <;> simp
            rw [if_neg (by rw [hco']; exact Bool.false_ne_true),
              writtenCount_step_closed cp st.done hco']
            simp
        · dsimp only
          rw [List.mem_append]
          rintro (h | h)
          · exact h2 h
          · exact doneEvent_not_mem_progressEventsFor cp st.done total (m c) h
      · have hok' : (p c).ok = false := by
          revert hok; cases (p c).ok <;> simp
        simp only [runLoop, hab', Bool.false_eq_true, if_false, hok', if_true]
        exact ⟨h1, h2⟩

/-- The cut point of the SSE channel influences only the events written:
`done`, the archive entries, the fetch log and the aborted flag are all
independent of it. -/
theorem runLoop_events_irrel (p : Nat → UnitResult) (m : Nat → String) (total : Nat) :
    ∀ (l : List Nat) (cp cp' : Option Nat) (st st' : DState),
      st.done = st'.done → st.entries = st'.entries → st.log = st'.log →
      st.aborted = st'.aborted →
      ((runLoop p m cp total l st).done = (runLoop p m cp' total l st').done
        ∧ (runLoop p m cp total l st).entries = (runLoop p m cp' total l st').entries
        ∧ (runLoop p m cp total l st).log = (runLoop p m cp' total l st').log
        ∧ (runLoop p m cp total l st).aborted = (runLoop p m cp' total l st').aborted) := by
  intro l
  induction l with
  | nil =>
    intro cp cp' st st' h1 h2 h3 h4
    exact ⟨h1, h2, h3, h4⟩
  | cons c rest ih =>
    intro cp cp' st st' h1 h2 h3 h4
    by_cases hab : st.aborted = true
    · rw [runLoop_of_aborted p m cp total _ st hab,
        runLoop_of_aborted p m cp' total _ st' (h4 ▸ hab)]
      exact ⟨h1, h2, h3, h4⟩
    · have hab' : st.aborted = false := by
        revert hab; cases st.aborted <;> simp
      have hab'' : st'.aborted = false := h4 ▸ hab'
      by_cases hok : (p c).ok = true
      · simp only [runLoop, hab', hab'', Bool.false_eq_true, if_false, hok, if_true]
        refine ih cp cp' _ _ ?_ ?_ ?_ ?_
        · dsimp only
          rw [h1]
        · dsimp only
          rw [h2]
        · dsimp only
          rw [h3]
        · rfl
      · have hok' : (p c).ok = false := by
          revert hok; cases (p c).ok <;> simp
        simp only [runLoop, hab', hab'', Bool.false_eq_true, if_false, hok', if_true]
        exact ⟨h1, by rw [h2], by rw [h3], by trivial⟩

/-- The final `archive.on("end")` write changes only the event trace:
`done`, entries, fetch log and the aborted flag of the download run are
those of the four loops. -/
theorem runDownload_core_components (w : DownloadWorld) (cp : Option Nat) (sel : Selections) :
    (runDownload w cp sel).done = (afterSubs w cp sel).done
    ∧ (runDownload w cp sel).entries = (afterSubs w cp sel).entries
    ∧ (runDownload w cp sel).log = (afterSubs w cp sel).log
    ∧ (runDownload w cp sel).aborted = (afterSubs w cp sel).aborted := by
  unfold runDownload
  split
  · exact ⟨rfl, rfl, rfl, rfl⟩
  · split
    · exact ⟨rfl, rfl, rfl, rfl⟩
    · exact ⟨rfl, rfl, rfl, rfl⟩

/-- The download handler reaches `finalize` without a thrown exception iff
every selected unit processes ok. -/
theorem afterSubs_aborted_iff (w : DownloadWorld) (cp : Option Nat) (sel : Selections) :
    (afterSubs w cp sel).aborted = false ↔ allOk w sel = true := by
  unfold afterSubs afterPages afterSyllabus afterModules allOk
  rw [runLoop_aborted_iff, runLoop_aborted_iff, runLoop_aborted_iff, runLoop_aborted_iff]
  simp only [initState, Bool.and_eq_true]
  constructor
  · rintro ⟨⟨⟨⟨-, h1⟩, h2⟩, h3⟩, h4⟩
    exact ⟨⟨⟨h1, h2⟩, h3⟩, h4⟩
  · rintro ⟨⟨⟨h1, h2⟩, h3⟩, h4⟩
    exact ⟨⟨⟨⟨trivial, h1⟩, h2⟩, h3⟩, h4⟩

/-- When every selected unit processes ok, the four loops increment `done`
once per selected (category, course) pair. -/
theorem afterSubs_done_of_ok (w : DownloadWorld) (cp : Option Nat) (sel : Selections)
    (h : allOk w sel = true) : (afterSubs w cp sel).done = totalOf sel := by
  simp only [allOk, Bool.and_eq_true] at h
  obtain ⟨⟨⟨h1, h2⟩, h3⟩, h4⟩ := h
  have a1 : (afterModules w cp sel).aborted = false := by
    unfold afterModules
    rw [runLoop_aborted_iff]
    exact ⟨rfl, h1⟩
  have d1 : (afterModules w cp sel).done = sel.modules.length := by
    unfold afterModules
    rw [runLoop_done_of_ok _ _ _ _ _ _ rfl h1]
    simp [initState]
  have a2 : (afterSyllabus w cp sel).aborted = false := by
    unfold afterSyllabus
    rw [runLoop_aborted_iff]
    exact ⟨a1, h2⟩
  have d2 : (afterSyllabus w cp sel).done
      = sel.modules.length + sel.syllabus.length := by
    unfold afterSyllabus
    rw [runLoop_done_of_ok _ _ _ _ _ _ a1 h2, d1]
  have a3 : (afterPages w cp sel).aborted = false := by
    unfold afterPages
    rw [runLoop_aborted_iff]
    exact ⟨a2, h3⟩
  have d3 : (afterPages w cp sel).done
      = sel.modules.length + sel.syllabus.length + sel.pages.length := by
    unfold afterPages
    rw [runLoop_done_of_ok _ _ _ _ _ _ a2 h3, d2]
  have d4 : (afterSubs w cp sel).done
      = sel.modules.length + sel.syllabus.length + sel.pages.length
        + sel.submissions.length := by
    unfold afterSubs
    rw [runLoop_done_of_ok _ _ _ _ _ _ a3 h4, d3]
  rw [d4]
  rfl

/-- A run that threw an exception accounted for strictly fewer than
`total` units. -/
theorem afterSubs_done_lt (w : DownloadWorld) (cp : Option Nat) (sel : Selections)
    (h : (afterSubs w cp sel).aborted = true) :
    (afterSubs w cp sel).done < totalOf sel := by
  by_cases h1 : (afterModules w cp sel).aborted = true
  · have hlt : (afterModules w cp sel).done < sel.modules.length := by
      have := runLoop_done_lt_of_abort (processModulesUnit w)
        (fun c => "Modules for " ++ toString c) cp (totalOf sel) sel.modules initState rfl h1
      simpa [afterModules, initState] using this
    have e2 : afterSyllabus w cp sel = afterModules w cp sel := by
      unfold afterSyllabus
      exact runLoop_of_aborted _ _ _ _ _ _ h1
    have e3 : afterPages w cp sel = afterModules w cp sel := by
      unfold afterPages
      rw [e2]
      exact runLoop_of_aborted _ _ _ _ _ _ h1
    have e4 : afterSubs w cp sel = afterModules w cp sel := by
      unfold afterSubs
      rw [e3]
      exact runLoop_of_aborted _ _ _ _ _ _ h1
    rw [e4]
    unfold totalOf
    omega
  · have a1 : (afterModules w cp sel).aborted = false := by
      revert h1; cases (afterModules w cp sel).aborted <;> simp
    have hdm : (afterModules w cp sel).done ≤ sel.modules.length := by
      have h := runLoop_done_le (processModulesUnit w)
        (fun c => "Modules for " ++ toString c) cp (totalOf sel) sel.modules initState
      simpa [afterModules, initState] using h
    by_cases h2 : (afterSyllabus w cp sel).aborted = true
    · have hlt : (afterSyllabus w cp sel).done
          < (afterModules w cp sel).done + sel.syllabus.length := by
        unfold afterSyllabus
        exact runLoop_done_lt_of_abort _ _ _ _ _ _ a1 h2
      have e3 : afterPages w cp sel = afterSyllabus w cp sel := by
        unfold afterPages
        exact runLoop_of_aborted _ _ _ _ _ _ h2
      have e4 : afterSubs w cp sel = afterSyllabus w cp sel := by
        unfold afterSubs
        rw [e3]
        exact runLoop_of_aborted _ _ _ _ _ _ h2
      rw [e4]
      unfold totalOf
      omega
    · have a2 : (afterSyllabus w cp sel).aborted = false := by
        revert h2; cases (afterSyllabus w cp sel).aborted <;> simp
      have hds : (afterSyllabus w cp sel).done
          ≤ (afterModules w cp sel).done + sel.syllabus.length := by
        have h := runLoop_done_le (processSyllabusUnit w)
          (fun c => "Syllabus for " ++ toString c) cp (totalOf sel) sel.syllabus
          (afterModules w cp sel)
        simpa [afterSyllabus] using h
      by_cases h3 : (afterPages w cp sel).aborted = true
      · have hlt : (afterPages w cp sel).done
            < (afterSyllabus w cp sel).done + sel.pages.length := by
          unfold afterPages
          exact runLoop_done_lt_of_abort _ _ _ _ _ _ a2 h3
        have e4 : afterSubs w cp sel = afterPages w cp sel := by
          unfold afterSubs
          exact runLoop_of_aborted _ _ _ _ _ _ h3
        rw [e4]
        unfold totalOf
        omega
      · have a3 : (afterPages w cp sel).aborted = false := by
          revert h3; cases (afterPages w cp sel).aborted <;> simp
        have hdp : (afterPages w cp sel).done
            ≤ (afterSyllabus w cp sel).done + sel.pages.length := by
          have h := runLoop_done_le (processPagesUnit w)
            (fun c => "Pages for " ++ toString c) cp (totalOf sel) sel.pages
            (afterSyllabus w cp sel)
          simpa [afterPages] using h
        have hlt : (afterSubs w cp sel).done
            < (afterPages w cp sel).done + sel.submissions.length := by
          unfold afterSubs
          exact runLoop_done_lt_of_abort _ _ _ _ _ _ a3 h
        unfold totalOf
        omega

/-- The four loops maintain the progress-trace invariant: the written
progress events carry `done` values `1, 2, ...` up to the written-events
count, and never a terminal event. -/
theorem afterSubs_events (w : DownloadWorld) (cp : Option Nat) (sel : Selections) :
    progressDones (afterSubs w cp sel).events
      = List.range' 1 (writtenCount cp (afterSubs w cp sel).done)
    ∧ Event.doneEvent ∉ (afterSubs w cp sel).events := by
  have i0 : progressDones initState.events = List.range' 1 (writtenCount cp initState.done) := by
    cases cp <;> simp [initState, progressDones, writtenCount]
  have i0' : Event.doneEvent ∉ initState.events := by
    simp [initState]
  have h1 := runLoop_events_inv (processModulesUnit w)
    (fun c => "Modules for " ++ toString c) cp (totalOf sel) sel.modules initState i0 i0'
  have h2 := runLoop_events_inv (processSyllabusUnit w)
    (fun c => "Syllabus for " ++ toString c) cp (totalOf sel) sel.syllabus
    (afterModules w cp sel) h1.1 h1.2
  have h3 := runLoop_events_inv (processPagesUnit w)
    (fun c => "Pages for " ++ toString c) cp (totalOf sel) sel.pages
    (afterSyllabus w cp sel) h2.1 h2.2
  have h4 := runLoop_events_inv (processSubmissionsUnit w)
    (fun c => "Submissions for " ++ toString c) cp (totalOf sel) sel.submissions
    (afterPages w cp sel) h3.1 h3.2
  exact h4

/-- Shape of the full download trace: progress `done` values are the
initial segment `1, 2, ...` of the written-events count; the terminal
event appears exactly once at the very end when the run did not throw and
the channel is still registered, and never otherwise. -/
theorem runDownload_shape (w : DownloadWorld) (cp : Option Nat) (sel : Selections) :
    progressDones (runDownload w cp sel).events
      = List.range' 1 (writtenCount cp (runDownload w cp sel).done)
    ∧ ((runDownload w cp sel).aborted = true →
        Event.doneEvent ∉ (runDownload w cp sel).events)
    ∧ ((runDownload w cp sel).aborted = false → clientOpen cp (totalOf sel) = false →
        Event.doneEvent ∉ (runDownload w cp sel).events)
    ∧ ((runDownload w cp sel).aborted = false → clientOpen cp (totalOf sel) = true →
        (runDownload w cp sel).events.count Event.doneEvent = 1
        ∧ (runDownload w cp sel).events.getLast? = some Event.doneEvent) := by
  obtain ⟨hpd, hmem⟩ := afterSubs_events w cp sel
  by_cases hab : (afterSubs w cp sel).aborted = true
  · have he : runDownload w cp sel = afterSubs w cp sel := by
      unfold runDownload
      rw [if_pos hab]
    rw [he]
    refine ⟨hpd, fun _ => hmem, fun _ _ => hmem, fun h _ => ?_⟩
    rw [hab] at h
    cases h
  · have hab' : (afterSubs w cp sel).aborted = false := by
      revert hab; cases (afterSubs w cp sel).aborted <;> simp
    by_cases hco : clientOpen cp (totalOf sel) = true
    · have he : runDownload w cp sel
          = { afterSubs w cp sel with
              events := (afterSubs w cp sel).events ++ [Event.doneEvent] } := by
        unfold runDownload
        rw [if_neg (by simp [hab']), if_pos hco]
      rw [he]
      refine ⟨?_, ?_, ?_, ?_⟩
      · dsimp only
        rw [progressDones_append]
        have hnil : progressDones [Event.doneEvent] = [] := rfl
        rw [hnil, List.append_nil]
        exact hpd
      · intro h
        dsimp only at h
        rw [hab'] at h
        cases h
      · intro _ h
        rw [hco] at h
        cases h
      · intro _ _
        dsimp only
        constructor
        · rw [List.count_append]
          have h0 : (afterSubs w cp sel).events.count Event.doneEvent = 0 :=
            List.count_eq_zero.mpr hmem
          rw [h0]
          rfl
        · exact List.getLast?_concat _
    · have hco' : clientOpen cp (totalOf sel) = false := by
        revert hco; cases clientOpen cp (totalOf sel) <;> simp
      have he : runDownload w cp sel = afterSubs w cp sel := by
        unfold runDownload
        rw [if_neg (by simp [hab']), if_neg (by simp [hco'])]
      rw [he]
      refine ⟨hpd, fun _ => hmem, fun _ _ => hmem, fun _ h => ?_⟩
      rw [hco'] at h
      cases h

/-- A run whose channel is cut at or before `total` completed units never
writes the terminal event. -/
theorem runDownload_no_terminal (w : DownloadWorld) (sel : Selections) (k : Nat)
    (hk : k ≤ totalOf sel) : Event.doneEvent ∉ (runDownload w (some k) sel).events := by
  have hsh := runDownload_shape w (some k) sel
  by_cases hab : (runDownload w (some k) sel).aborted = true
  · exact hsh.2.1 hab
  · have hab' : (runDownload w (some k) sel).aborted = false := by
      revert hab; cases (runDownload w (some k) sel).aborted <;> simp
    have hco : clientOpen (some k) (totalOf sel) = false := by
      simp only [clientOpen]
      exact decide_eq_false (by omega)
    exact hsh.2.2.1 hab' hco

/-- The cancellation cut point influences only the events written: the
fetches issued, the entries appended, the `done` counter and the aborted
flag of the whole run do not depend on it. -/
theorem runDownload_events_irrel (w : DownloadWorld) (sel : Selections)
    (cp cp' : Option Nat) :
    (runDownload w cp sel).done = (runDownload w cp' sel).done
    ∧ (runDownload w cp sel).entries = (runDownload w cp' sel).entries
    ∧ (runDownload w cp sel).log = (runDownload w cp' sel).log
    ∧ (runDownload w cp sel).aborted = (runDownload w cp' sel).aborted := by
  have h1 := runLoop_events_irrel (processModulesUnit w)
    (fun c => "Modules for " ++ toString c) (totalOf sel) sel.modules cp cp'
    initState initState rfl rfl rfl rfl
  have h2 := runLoop_events_irrel (processSyllabusUnit w)
    (fun c => "Syllabus for " ++ toString c) (totalOf sel) sel.syllabus cp cp'
    (afterModules w cp sel) (afterModules w cp' sel) h1.1 h1.2.1 h1.2.2.1 h1.2.2.2
  have h3 := runLoop_events_irrel (processPagesUnit w)
    (fun c => "Pages for " ++ toString c) (totalOf sel) sel.pages cp cp'
    (afterSyllabus w cp sel) (afterSyllabus w cp' sel) h2.1 h2.2.1 h2.2.2.1 h2.2.2.2
  have h4 := runLoop_events_irrel (processSubmissionsUnit w)
    (fun c => "Submissions for " ++ toString c) (totalOf sel) sel.submissions cp cp'
    (afterPages w cp sel) (afterPages w cp' sel) h3.1 h3.2.1 h3.2.2.1 h3.2.2.2
  obtain ⟨d1, d2, d3, d4⟩ := runDownload_core_components w cp sel
  obtain ⟨e1, e2, e3, e4⟩ := runDownload_core_components w cp' sel
  refine ⟨?_, ?_, ?_, ?_⟩
  · rw [d1, e1]
    exact h4.1
  · rw [d2, e2]
    exact h4.2.1
  · rw [d3, e3]
    exact h4.2.2.1
  · rw [d4, e4]
    exact h4.2.2.2

/-- Sanitized names contain no path separator characters. -/
theorem sanitizeName_no_separators (s : String) :
    (sanitizeName s).data.all (fun c => !(c == '/' || c == '\\')) = true := by
  have h : ∀ l : List Char,
      (l.map (fun c => if c = '/' || c = '\\' then '_' else c)).all
        (fun c => !(c == '/' || c == '\\')) = true := by
    intro l
    induction l with
    | nil => rfl
    | cons c rest ih =>
      simp only [List.map_cons, List.all_cons, ih, Bool.and_true]
      by_cases h1 : c = '/'
      · simp [h1]
      · by_cases h2 : c = '\\'
        · simp [h2]
        · simp [h1, h2]
  exact h s.data

/-- C1 (counterexample): the claim says a failure to resolve one
individual item (here, the file-metadata fetch of course 1's single module
item) is logged and the category fetch continues, and other selected pairs
still proceed.  In fact the download handler has no try/catch: the run
aborts at once, course 2's unit (which on its own processes fine) is never
fetched, no entry is archived and no progress event is written. -/
theorem C1_counterexample_item_failure_aborts_whole_job :
    runDownload wC1 none selC1
      = ⟨0, [], [], [FetchCall.modulesList 1, FetchCall.fileMeta 10], true⟩
    ∧ (processModulesUnit wC1 2).ok = true
    ∧ FetchCall.modulesList 2 ∉ (runDownload wC1 none selC1).log := by
  refine ⟨rfl, rfl, ?_⟩
  decide

/-- C1 (amended): there is no two-tier failure tolerance in the download
pipeline.  The run reaches `finalize` iff every fetch of every selected
(category, course) unit succeeds — a single item-level failure,
exactly like a top-level listing failure, aborts the whole job — and an
aborted job never writes a terminal event. -/
theorem C1_amended_any_failure_aborts_job (w : DownloadWorld) (cp : Option Nat)
    (sel : Selections) :
    ((runDownload w cp sel).aborted = false ↔ allOk w sel = true)
    ∧ ((runDownload w cp sel).aborted = true →
        Event.doneEvent ∉ (runDownload w cp sel).events) := by
  constructor
  · rw [(runDownload_core_components w cp sel).2.2.2]
    exact afterSubs_aborted_iff w cp sel
  · exact (runDownload_shape w cp sel).2.1

/-- C1 (witness): the amended theorem applied to the concrete failing
world `wC1`. -/
theorem C1_amended_witness : Event.doneEvent ∉ (runDownload wC1 none selC1).events :=
  (C1_amended_any_failure_aborts_job wC1 none selC1).2 rfl

/-- C2 (counterexample): the claim says a non-success status other than
403/404 (e.g. 500) aborts the whole catalog build with an error.  In the
code the `throw` for course 1's 500 is swallowed by the surrounding
`catch (e) { console.warn(e) }`: the build continues, still fetches course
2, and the endpoint answers 200 with course 2's record instead of an
error. -/
theorem C2_counterexample_500_is_skipped_not_fatal :
    courseMetaBody wC2 1 = Except.error ("Course 1 metadata fetch failed: 500")
    ∧ fetchCourseMetas wC2 [1, 2]
        = ([1, 2], [⟨2, "Course Two", "CS 2", none, true⟩])
    ∧ apiCourses wC2 2 ("s") = Except.ok [⟨2, "Course Two", "CS 2", none, true⟩] :=
  ⟨rfl, rfl, rfl⟩

/-- C2 (amended): during catalog build a 403 or 404 for an individual
course silently skips it, and every other failure of that course's
metadata fetch (500, any non-success status, or a rejected fetch) is
logged and likewise skips just that course: the metadata loop always
visits every id, keeps exactly the 2xx courses, and the catalog build
never aborts because of a course metadata response. -/
theorem C2_amended_metadata_failures_all_skipped (w : CatalogWorld) (ids : List Nat) :
    (fetchCourseMetas w ids).1 = ids
    ∧ (fetchCourseMetas w ids).2 = ids.filterMap (fun id =>
        match courseMetaBody w id with
        | Except.ok o => o
        | Except.error _ => none)
    ∧ (∀ fuel u es, paginate w.enroll fuel u [] = some es →
        fetchAllCourses w fuel u
          = Except.ok (fetchCourseMetas w (uniqueIds (es.map (fun e => e.course_id))))) := by
  refine ⟨fetchCourseMetas_log w ids, fetchCourseMetas_courses w ids, ?_⟩
  intro fuel u es h
  simp [fetchAllCourses, h]

/-- C2 (witness): the amended theorem applied to the concrete world
`wC2`, whose single enrollment page lists courses 1 and 2. -/
theorem C2_amended_witness :
    fetchAllCourses wC2 2 ("s")
      = Except.ok (fetchCourseMetas wC2
          (uniqueIds (([⟨1⟩, ⟨2⟩] : List Enrollment).map (fun e => e.course_id)))) :=
  (C2_amended_metadata_failures_all_skipped wC2 [1, 2]).2.2 2 ("s") [⟨1⟩, ⟨2⟩] rfl

/-- C3 (counterexample): the claim says every unit-level failure is
caught, still increments `done` and still emits a progress message, so the
counter always reaches `total`.  With course 2's syllabus listing failing,
the job (total 2) dies after one unit: `done` stays 1, the failing unit
emits no message, and no further events are written. -/
theorem C3_counterexample_done_stops_below_total :
    runDownload wC3 none selC3
      = ⟨1, [Event.progress 1 2 ("Modules for 1")], [],
          [FetchCall.modulesList 1, FetchCall.syllabusAtts 2], true⟩
    ∧ totalOf selC3 = 2 :=
  ⟨rfl, rfl⟩

/-- C3 (amended): unit-level failures are not caught.  A job whose units
all succeed increments `done` once per unit with one progress event each,
so the counter reaches `total`; a job with any failing unit aborts with
`done` strictly below `total`, without a progress message for the failing
unit and without a terminal event. -/
theorem C3_amended_counter_reaches_total_iff_no_failure (w : DownloadWorld)
    (sel : Selections) :
    ((runDownload w none sel).aborted = false →
      (runDownload w none sel).done = totalOf sel
      ∧ progressDones (runDownload w none sel).events = List.range' 1 (totalOf sel))
    ∧ ((runDownload w none sel).aborted = true →
      (runDownload w none sel).done < totalOf sel
      ∧ Event.doneEvent ∉ (runDownload w none sel).events) := by
  obtain ⟨hpd, habm, _, _⟩ := runDownload_shape w none sel
  obtain ⟨d1, _, _, d4⟩ := runDownload_core_components w none sel
  constructor
  · intro hab
    have hok : allOk w sel = true :=
      (afterSubs_aborted_iff w none sel).mp (by rw [← d4]; exact hab)
    have hdone : (runDownload w none sel).done = totalOf sel := by
      rw [d1]
      exact afterSubs_done_of_ok w none sel hok
    refine ⟨hdone, ?_⟩
    rw [hpd, hdone]
    rfl
  · intro hab
    refine ⟨?_, habm hab⟩
    rw [d1]
    exact afterSubs_done_lt w none sel (by rw [← d4]; exact hab)

/-- C3 (witness): the amended theorem applied to the all-success world
`wOk`. -/
theorem C3_amended_witness :
    (runDownload wOk none selOk).done = totalOf selOk
    ∧ progressDones (runDownload wOk none selOk).events = List.range' 1 (totalOf selOk) :=
  (C3_amended_counter_reaches_total_iff_no_failure wOk selOk).1 rfl

/-- C4 (counterexample): the claim says path separators in every
user-controlled name segment, including filenames, are replaced before the
entry path is formed (a filename `a\b.pdf` yields segment `a_b.pdf`).  In
the run over `wC4` both archive entries keep the raw `a\b.pdf`: the
filename is used verbatim, unlike what sanitizing it would produce. -/
theorem C4_counterexample_filename_separator_survives :
    (runDownload wC4 none selC4).entries.map (fun e => e.path)
      = ["7/Modules/Unit 1_Intro/a\\b.pdf", "7/Syllabus/a\\b.pdf"]
    ∧ sanitizeName ("a\\b.pdf") = "a_b.pdf"
    ∧ ("7/Syllabus/a\\b.pdf" : String) ≠ "7/Syllabus/" ++ sanitizeName ("a\\b.pdf") := by
  refine ⟨rfl, rfl, ?_⟩
  decide

/-- C4 (amended): only module names and page titles are sanitized before
entry paths are formed (separator characters become `_`, so those segments
can add no nesting); filenames, display names and assignment names are
used verbatim, so separators occurring in them survive into the archive
entry path. -/
theorem C4_amended_partial_sanitization (s : String) :
    (sanitizeName s).data.all (fun c => !(c == '/' || c == '\\')) = true
    ∧ sanitizeName ("Unit 1/Intro") = "Unit 1_Intro"
    ∧ (runDownload wC4 none selC4).entries
        = [⟨"7/Modules/Unit 1_Intro/a\\b.pdf", "B40"⟩, ⟨"7/Syllabus/a\\b.pdf", "B41"⟩] :=
  ⟨sanitizeName_no_separators s, rfl, rfl⟩

/-- C5 (counterexample): the claim says a selection with zero
(category, course) pairs is rejected with an error response.  With a
registered job id and the empty selection the handler accepts the request,
runs the (empty) job, and even writes a terminal event for `total = 0`. -/
theorem C5_counterexample_zero_pairs_accepted :
    totalOf selEmpty = 0
    ∧ downloadHandler ["job1"] (some "job1") wEmptyD none selEmpty
        = Except.ok ⟨0, [Event.doneEvent], [], [], false⟩ :=
  ⟨rfl, rfl⟩

/-- C5 (amended): a download request is rejected with a 400 error exactly
when the job id is missing, empty, or has no open progress channel; the
number of selected pairs is never checked, so a zero-pair selection is
accepted and the job body runs. -/
theorem C5_amended_validation_only_checks_id (sse : List String) (did : Option String)
    (w : DownloadWorld) (cp : Option Nat) (sel : Selections) :
    (did = none → downloadHandler sse did w cp sel = Except.error 400)
    ∧ (∀ id, did = some id → sse.contains id = false →
        downloadHandler sse did w cp sel = Except.error 400)
    ∧ (∀ id, did = some id → id ≠ "" → sse.contains id = true →
        downloadHandler sse did w cp sel = Except.ok (runDownload w cp sel)) := by
  refine ⟨?_, ?_, ?_⟩
  · rintro rfl
    rfl
  · rintro id rfl hc
    by_cases h0 : id = ""
    · simp [downloadHandler, h0]
    · unfold downloadHandler
      dsimp only
      rw [if_neg h0, if_neg (by rw [hc]; exact Bool.false_ne_true)]
  · rintro id rfl h0 hc
    unfold downloadHandler
    dsimp only
    rw [if_neg h0, if_pos hc]

/-- C5 (witness): the amended theorem applied to a registered id and the
empty selection. -/
theorem C5_amended_witness :
    downloadHandler ["job1"] (some "job1") wEmptyD none selEmpty
      = Except.ok (runDownload wEmptyD none selEmpty) :=
  (C5_amended_validation_only_checks_id ["job1"] (some "job1") wEmptyD none selEmpty).2.2
    ("job1") rfl (by decide) rfl

/-- C6: the paginator repeatedly follows the `rel="next"` entry of each
Link header (`getNextPage` picks the comma-separated entry whose relation
is `next` and strips its angle brackets), terminates at the page without
such an entry, and accumulates all page bodies into one ordered sequence
whose length is the sum of the per-page lengths, page order preserved. -/
theorem C6_paginator_follows_next_and_accumulates {α : Type}
    (w : String → PageResp α) (u : String) (rest : List String) (fuel : Nat)
    (hchain : ChainFrom w u rest = true) (hfuel : rest.length < fuel) :
    paginate w fuel u [] = some (((u :: rest).map (fun x => (w x).body)).flatten)
    ∧ (((u :: rest).map (fun x => (w x).body)).flatten).length
      = ((u :: rest).map (fun x => ((w x).body).length)).sum := by
  constructor
  · simpa using paginate_chain w rest u fuel [] hchain hfuel
  · rw [List.length_flatten, List.map_map]
    rfl

/-- C6 (witness): three concrete pages chained by real Link-header
strings; the middle hop also carries a `rel="prev"` entry that is
correctly ignored. -/
theorem C6_witness : paginate wPages 3 ("u1") [] = some [1, 2, 3, 4, 5] :=
  ((C6_paginator_follows_next_and_accumulates wPages ("u1") ["u2", "u3"] 3
    (by decide) (by decide)).1).trans rfl

/-- C7: the catalog build deduplicates enrollments to unique course ids —
`uniqueIds` keeps the first occurrence of each id in order, is
duplicate-free, and loses no id — and the metadata loop then issues
exactly one fetch per deduplicated id; in particular enrollments
`[1, 2, 1]` produce exactly the two fetches for ids 1 and 2. -/
theorem C7_one_metadata_fetch_per_distinct_course (es : List Enrollment)
    (w : CatalogWorld) :
    (fetchCourseMetas w (uniqueIds (es.map (fun e => e.course_id)))).1
      = uniqueIds (es.map (fun e => e.course_id))
    ∧ (uniqueIds (es.map (fun e => e.course_id))).Nodup
    ∧ (∀ a, a ∈ uniqueIds (es.map (fun e => e.course_id))
        ↔ a ∈ es.map (fun e => e.course_id))
    ∧ uniqueIds [1, 2, 1] = [1, 2] :=
  ⟨fetchCourseMetas_log w _, uniqueIds_nodup _,
    fun a => mem_uniqueIds _ a, rfl⟩

/-- C8: progress events of any run are ordered by non-decreasing `done`;
for a completed, uncanceled job with at least one pair, `done` reaches
`total` in exactly one progress event and the terminal event is the unique
last event (hence fires exactly once, after `done = total`); a job
canceled at or before completion writes no terminal event. -/
theorem C8_progress_events_ordered_and_terminal_once (w : DownloadWorld)
    (cp : Option Nat) (sel : Selections) :
    List.Chain' (fun a b => a ≤ b) (progressDones (runDownload w cp sel).events)
    ∧ ((runDownload w cp sel).aborted = false → cp = none → 1 ≤ totalOf sel →
        progressDones (runDownload w cp sel).events = List.range' 1 (totalOf sel)
        ∧ (progressDones (runDownload w cp sel).events).count (totalOf sel) = 1
        ∧ (runDownload w cp sel).events.count Event.doneEvent = 1
        ∧ (runDownload w cp sel).events.getLast? = some Event.doneEvent)
    ∧ (∀ k, cp = some k → k ≤ totalOf sel →
        Event.doneEvent ∉ (runDownload w cp sel).events) := by
  obtain ⟨hpd, habm, hcom, hterm⟩ := runDownload_shape w cp sel
  refine ⟨?_, ?_, ?_⟩
  · rw [hpd]
    exact chain_le_range' 1 _
  · intro hab hcp h1
    subst hcp
    have hok : allOk w sel = true :=
      (afterSubs_aborted_iff w none sel).mp
        (by rw [← (runDownload_core_components w none sel).2.2.2]; exact hab)
    have hdone : (runDownload w none sel).done = totalOf sel := by
      rw [(runDownload_core_components w none sel).1]
      exact afterSubs_done_of_ok w none sel hok
    have hr : progressDones (runDownload w none sel).events
        = List.range' 1 (totalOf sel) := by
      rw [hpd, hdone]
      rfl
    refine ⟨hr, ?_, (hterm hab rfl).1, (hterm hab rfl).2⟩
    rw [hr]
    exact List.count_eq_one_of_mem (List.nodup_range' 1 (totalOf sel))
      (List.mem_range'_1.mpr ⟨h1, by omega⟩)
  · intro k hcp hk
    subst hcp
    exact runDownload_no_terminal w sel k hk

/-- C8 (witness): the theorem applied to the all-success world `wOk`
(two units, channel never cut). -/
theorem C8_witness :
    progressDones (runDownload wOk none selOk).events = List.range' 1 (totalOf selOk)
    ∧ (runDownload wOk none selOk).events.count Event.doneEvent = 1
    ∧ (runDownload wOk none selOk).events.getLast? = some Event.doneEvent := by
  have h := (C8_progress_events_ordered_and_terminal_once wOk none selOk).2.1 rfl rfl
    (by decide)
  exact ⟨h.1, h.2.2.1, h.2.2.2⟩

/-- C9 (counterexample): the claim says that after the caller aborts, the
orchestrator stops issuing further upstream fetches.  Cutting the channel
after 2 of 5 units, the run still issues the module-listing fetches of
courses 3, 4 and 5 (the loops never observe the abort); only the event
writes stop, and no terminal event is written. -/
theorem C9_counterexample_fetches_continue_after_cancel :
    runDownload wC9 (some 2) selC9
      = ⟨5, [Event.progress 1 5 ("Modules for 1"), Event.progress 2 5 ("Modules for 2")],
          [],
          [FetchCall.modulesList 1, FetchCall.modulesList 2, FetchCall.modulesList 3,
            FetchCall.modulesList 4, FetchCall.modulesList 5], false⟩
    ∧ FetchCall.modulesList 5 ∈ (runDownload wC9 (some 2) selC9).log := by
  refine ⟨rfl, ?_⟩
  decide

/-- C9 (amended): on caller-initiated cancellation the Progress Channel is
closed rather than written to — no terminal event is emitted — but the
orchestrator does not stop: the upstream fetches issued, the entries
appended and the `done` counter are identical whether or not (and
whenever) the channel is cut. -/
theorem C9_amended_cancellation_does_not_stop_fetching (w : DownloadWorld)
    (sel : Selections) (cp cp' : Option Nat) :
    (runDownload w cp sel).log = (runDownload w cp' sel).log
    ∧ (runDownload w cp sel).entries = (runDownload w cp' sel).entries
    ∧ (runDownload w cp sel).done = (runDownload w cp' sel).done
    ∧ (∀ k, cp = some k → k ≤ totalOf sel →
        Event.doneEvent ∉ (runDownload w cp sel).events) := by
  obtain ⟨h1, h2, h3, _⟩ := runDownload_events_irrel w sel cp cp'
  refine ⟨h3, h2, h1, ?_⟩
  intro k hcp hk
  subst hcp
  exact runDownload_no_terminal w sel k hk

/-- C9 (witness): the amended theorem applied to `wC9` with the channel
cut after 2 of 5 units. -/
theorem C9_amended_witness : Event.doneEvent ∉ (runDownload wC9 (some 2) selC9).events :=
  (C9_amended_cancellation_does_not_stop_fetching wC9 selC9 (some 2) none).2.2.2 2 rfl
    (by decide)

/-- C10: `sendProgress` for a job id with no registered SSE channel is a
silent no-op — the lookup misses, the function returns without writing
anything and without an error. -/
theorem C10_sendProgress_unregistered_id_is_noop (sseClients : List (String × Nat))
    (id : String) (done total : Nat) (message : String)
    (h : sseClients.lookup id = none) :
    sendProgressWrites sseClients id done total message = [] := by
  unfold sendProgressWrites
  rw [h]

/-- C10 (witness): the theorem applied to a map registering only `job1`
while `job2` is emitted to. -/
theorem C10_witness : sendProgressWrites [("job1", 1)] ("job2") 1 2 ("m") = [] :=
  C10_sendProgress_unregistered_id_is_noop [("job1", 1)] ("job2") 1 2 ("m") rfl
